import Mathlib

/-!
# Verification of the line-transformation pipeline (prompt_toolkit layout processors)

Shallow embedding of `src/prompt_toolkit/layout/processors.py`: the
fragment/transformation data model, the `_MergedProcessor` composition engine,
and the concrete stages (`BeforeInput`, `HighlightSelectionProcessor`,
`TabsProcessor`, `HighlightMatchingBracketProcessor`,
`ReverseSearchProcessor`'s stage filter), together with theorems settling the
frozen claims about the spec.

Python integers are modelled as `Int` where negative values are reachable and
as `Nat` where the source only ever produces non-negative values; a Python
function that can raise is modelled with `Option`/`Except` (`none`/`error`
standing for the exception).
-/

namespace Processors

/-- A fragment is a `(style, text)` pair.  The text run is modelled as a list
of characters so that per-character operations are structural. -/
def Fragment : Type := String × List Char

instance : DecidableEq Fragment := by unfold Fragment; infer_instance

instance : Inhabited Fragment := ⟨("", [])⟩

/-- Modelled from the spec: `fragment_list_len` from
`prompt_toolkit/layout/utils.py` (not under `src/`); the spec's "total text
length L" of a fragment sequence — the sum of the lengths of the text runs. -/
def fragmentListLen (fs : List Fragment) : Nat :=
  (fs.map (fun f => f.2.length)).sum

/-- Modelled from the spec: `explode_text_fragments` from
`prompt_toolkit/layout/utils.py` (not under `src/`); the spec's "exploded
fragment sequence" — one single-character fragment per character, each keeping
the style of the run it came from. -/
def explodeTextFragments (fs : List Fragment) : List Fragment :=
  fs.flatMap (fun f => f.2.map (fun c => (f.1, [c])))

/-- `Transformation`: result of one stage — new fragments plus the two
position-mapping functions.  A Python `None` mapping defaults to the
identity (`source_to_display or (lambda i: i)`). -/
structure Transformation where
  fragments : List Fragment
  source_to_display : Int → Int := fun i => i
  display_to_source : Int → Int := fun i => i

/-- `TransformationInput`: the read-only context one stage receives.  Only the
fields the embedded code reads are kept (`app`, `buffer_control`, `document`
are threaded through unchanged by the merge engine and are supplied to the
concrete stages as explicit parameters below). -/
structure TransformationInput where
  lineno : Nat
  source_to_display : Int → Int
  fragments : List Fragment
  width : Nat
  height : Nat

/-- A processor, seen extensionally: `apply_transformation` as a function from
the input context to a `Transformation`. -/
def Processor : Type := TransformationInput → Transformation

/-- Apply a list of mapping functions in order (first element first):
the body of the closures `source_to_display` / `display_to_source` in
`_MergedProcessor.apply_transformation` (`for f in fs: i = f(i)`). -/
def chainApply (fs : List (Int → Int)) (i : Int) : Int :=
  fs.foldl (fun j f => f j) i

/-- One iteration of the loop in `_MergedProcessor.apply_transformation`:
invoke processor `p` with the accumulated `source_to_display` (the composition
of every function collected so far, the caller's own mapping included) and the
fragments produced so far, then record the returned pair of mappings. -/
def mergedStep (ti : TransformationInput)
    (st : List Fragment × List (Int → Int) × List (Int → Int)) (p : Processor) :
    List Fragment × List (Int → Int) × List (Int → Int) :=
  let t := p { ti with source_to_display := chainApply st.2.1, fragments := st.1 }
  (t.fragments, st.2.1 ++ [t.source_to_display], st.2.2 ++ [t.display_to_source])

/-- The loop of `_MergedProcessor.apply_transformation`: starting from the
caller's fragments, `source_to_display_functions = [ti.source_to_display]` and
`display_to_source_functions = []`, fold `mergedStep` over the processors. -/
def mergedRun (ps : List Processor) (ti : TransformationInput) :
    List Fragment × List (Int → Int) × List (Int → Int) :=
  ps.foldl (mergedStep ti) (ti.fragments, [ti.source_to_display], [])

/-- `_MergedProcessor.apply_transformation`: run the sub-processors, then
return the final fragments, the forward composition of the collected
`source_to_display` functions with the caller's own mapping removed
(`del source_to_display_functions[:1]`), and the composition of the collected
`display_to_source` functions in reverse order. -/
def mergedApply (ps : List Processor) (ti : TransformationInput) : Transformation :=
  let st := mergedRun ps ti
  { fragments := st.1
    source_to_display := fun i => chainApply (st.2.1.drop 1) i
    display_to_source := fun i => chainApply st.2.2.reverse i }

/-- `merge_processors`: expose a list of processors as a single processor. -/
def mergeProcessors (ps : List Processor) : Processor :=
  mergedApply ps

/-- The transformations returned by the sub-stages during one merged run, in
order: stage `k` receives the fragments produced by stage `k-1` and the
composition of the caller's mapping with all earlier returned forward
mappings. -/
def subTransformations (ti : TransformationInput) :
    List Processor → List Fragment → List (Int → Int) → List Transformation
  | [], _, _ => []
  | p :: ps, frags, s2ds =>
    let t := p { ti with source_to_display := chainApply s2ds, fragments := frags }
    t :: subTransformations ti ps t.fragments (s2ds ++ [t.source_to_display])

theorem mergedRun_snd_fst (ti : TransformationInput) :
    ∀ (ps : List Processor) (frags : List Fragment) (s2ds d2ss : List (Int → Int)),
      (ps.foldl (mergedStep ti) (frags, s2ds, d2ss)).2.1 =
        s2ds ++ (subTransformations ti ps frags s2ds).map (·.source_to_display)
  | [], frags, s2ds, d2ss => by simp [subTransformations]
  | p :: ps, frags, s2ds, d2ss => by
    simp only [List.foldl_cons, subTransformations, mergedStep, List.map_cons]
    rw [mergedRun_snd_fst ti ps]
    simp

theorem mergedRun_snd_snd (ti : TransformationInput) :
    ∀ (ps : List Processor) (frags : List Fragment) (s2ds d2ss : List (Int → Int)),
      (ps.foldl (mergedStep ti) (frags, s2ds, d2ss)).2.2 =
        d2ss ++ (subTransformations ti ps frags s2ds).map (·.display_to_source)
  | [], frags, s2ds, d2ss => by simp [subTransformations]
  | p :: ps, frags, s2ds, d2ss => by
    simp only [List.foldl_cons, subTransformations, mergedStep, List.map_cons]
    rw [mergedRun_snd_snd ti ps]
    simp

/-- C1: for a chain of stages merged into one, the merged stage's returned
`source_to_display` is the forward composition `Sn.s2d ∘ ... ∘ S1.s2d` of the
forward mappings returned by the sub-stages during the run, and its returned
`display_to_source` is the reverse composition `S1.d2s ∘ ... ∘ Sn.d2s`; in
particular for two stages A then B the merged forward mapping at `i` is
`B.s2d (A.s2d i)` and the merged backward mapping at `j` is `A.d2s (B.d2s j)`,
also when the first sub-stage is itself a merged chain (a composed stage is a
`Processor` like any other, so the quantifiers cover it; the last conjunct
instantiates this explicitly). -/
theorem merged_composition_law (ti : TransformationInput) :
    (∀ (ps : List Processor) (i j : Int),
      (mergedApply ps ti).source_to_display i =
        chainApply ((subTransformations ti ps ti.fragments
          [ti.source_to_display]).map (·.source_to_display)) i ∧
      (mergedApply ps ti).display_to_source j =
        chainApply ((subTransformations ti ps ti.fragments
          [ti.source_to_display]).map (·.display_to_source)).reverse j) ∧
    (∀ (A B : Processor) (i j : Int),
      (mergedApply [A, B] ti).source_to_display i =
        (B { ti with
              source_to_display := chainApply [ti.source_to_display,
                (A { ti with source_to_display := chainApply [ti.source_to_display],
                             fragments := ti.fragments }).source_to_display]
              fragments := (A { ti with
                source_to_display := chainApply [ti.source_to_display],
                fragments := ti.fragments }).fragments }).source_to_display
          ((A { ti with source_to_display := chainApply [ti.source_to_display],
                        fragments := ti.fragments }).source_to_display i) ∧
      (mergedApply [A, B] ti).display_to_source j =
        (A { ti with source_to_display := chainApply [ti.source_to_display],
                     fragments := ti.fragments }).display_to_source
          ((B { ti with
              source_to_display := chainApply [ti.source_to_display,
                (A { ti with source_to_display := chainApply [ti.source_to_display],
                             fragments := ti.fragments }).source_to_display]
              fragments := (A { ti with
                source_to_display := chainApply [ti.source_to_display],
                fragments := ti.fragments }).fragments }).display_to_source j)) ∧
    (∀ (rs : List Processor) (B : Processor) (i : Int),
      (mergedApply [mergeProcessors rs, B] ti).source_to_display i =
        (B { ti with
              source_to_display := chainApply [ti.source_to_display,
                (mergeProcessors rs { ti with
                  source_to_display := chainApply [ti.source_to_display],
                  fragments := ti.fragments }).source_to_display]
              fragments := (mergeProcessors rs { ti with
                source_to_display := chainApply [ti.source_to_display],
                fragments := ti.fragments }).fragments }).source_to_display
          ((mergeProcessors rs { ti with
              source_to_display := chainApply [ti.source_to_display],
              fragments := ti.fragments }).source_to_display i)) := by
  refine ⟨fun ps i j => ⟨?_, ?_⟩, fun A B i j => ⟨rfl, rfl⟩, fun rs B i => rfl⟩
  · show chainApply ((mergedRun ps ti).2.1.drop 1) i = _
    rw [mergedRun, mergedRun_snd_fst]
    simp
  · show chainApply (mergedRun ps ti).2.2.reverse j = _
    rw [mergedRun, mergedRun_snd_snd]
    simp

/-- `BeforeInput.apply_transformation`: on line 0 prepend the fragments
returned by `get_text_fragments` (supplied here as the explicit parameter
`fragmentsBefore`, the value of that call) and shift both mappings by their
total text length; on any other line return the input fragments with the
default identity mappings (`source_to_display = display_to_source = None`). -/
def beforeInputApply (fragmentsBefore : List Fragment) (ti : TransformationInput) :
    Transformation :=
  if ti.lineno = 0 then
    let shift_position : Int := fragmentListLen fragmentsBefore
    { fragments := fragmentsBefore ++ ti.fragments
      source_to_display := fun i => i + shift_position
      display_to_source := fun i => i - shift_position }
  else
    { fragments := ti.fragments }

/-- `HighlightSelectionProcessor.apply_transformation`, with the data the stage
reads from the excluded document layer supplied as parameters:
`selectionAtLine` is `document.selection_range_at_line(lineno)` and `s2d` the
accumulated `source_to_display` of the input.  On an empty exploded line with
both mapped endpoints 0 it returns the single selected-space fragment;
otherwise it appends the selected style to every character with index in
`[from_, to]` that is inside the line. -/
def highlightSelectionApply (selectionAtLine : Option (Nat × Nat))
    (s2d : Nat → Nat) (fragments : List Fragment) : List Fragment :=
  match selectionAtLine with
  | none => fragments
  | some (from0, to0) =>
    let from1 := s2d from0
    let to1 := s2d to0
    let exploded := explodeTextFragments fragments
    if from1 = 0 ∧ to1 = 0 ∧ exploded.length = 0 then
      [(" class:selected ", [' '])]
    else
      (List.range' from1 (to1 + 1 - from1)).foldl
        (fun frs i =>
          match frs.get? i with
          | some f => frs.set i (f.1 ++ " class:selected ", f.2)
          | none => frs)
        exploded

/-- C9: merging the empty list of stages yields a stage that returns the input
fragments unchanged and identity mappings in both directions. -/
theorem merge_empty_is_identity (ti : TransformationInput) (i j : Int) :
    (mergeProcessors [] ti).fragments = ti.fragments ∧
    (mergeProcessors [] ti).source_to_display i = i ∧
    (mergeProcessors [] ti).display_to_source j = j :=
  ⟨rfl, rfl, rfl⟩

/-- The loop of `TabsProcessor.apply_transformation` over the exploded
fragments, tracking the source index `i` and the display column `pos`:
returns the `position_mappings` entries in insertion order (the final entry
`(i + length, pos_final)` for the virtual end-of-line index included), the
result fragments, and the final display column.  A tab at column `pos` is
replaced by `count = tabstop - pos % tabstop` characters, `separator1` then
`count - 1` copies of `separator2`, all styled with the processor's style;
the Python fallback `if count == 0: count = tabstop` is kept (it is only
reachable when `tabstop = 0`, where the Python instead raises
`ZeroDivisionError` on `pos % tabstop`; every theorem below assumes
`0 < tabstop`, where `%` agrees with Python). -/
def tabsWalk (tabstop : Nat) (separator1 separator2 : Char) (style : String) :
    List Fragment → Nat → Nat → List (Nat × Nat) × List Fragment × Nat
  | [], i, pos => ([(i, pos)], [], pos)
  | f :: fs, i, pos =>
    if f.2 = ['\t'] then
      let count0 := tabstop - pos % tabstop
      let count := if count0 = 0 then tabstop else count0
      let rest := tabsWalk tabstop separator1 separator2 style fs (i + 1) (pos + count)
      ((i, pos) :: rest.1,
        (style, [separator1]) :: (style, List.replicate (count - 1) separator2) :: rest.2.1,
        rest.2.2)
    else
      let rest := tabsWalk tabstop separator1 separator2 style fs (i + 1) (pos + 1)
      ((i, pos) :: rest.1, f :: rest.2.1, rest.2.2)

/-- `TabsProcessor.apply_transformation` on one line: explode the input
fragments and walk them from source index 0, display column 0. -/
def tabsTransform (tabstop : Nat) (separator1 separator2 : Char) (style : String)
    (fragments : List Fragment) : List (Nat × Nat) × List Fragment × Nat :=
  tabsWalk tabstop separator1 separator2 style (explodeTextFragments fragments) 0 0

/-- The inner `source_to_display` of `TabsProcessor`: a direct lookup
`position_mappings[from_position]`; `none` models the `KeyError` the Python
raises when the position was never recorded. -/
def tabsSourceToDisplay (mappings : List (Nat × Nat)) (from_position : Nat) :
    Option Nat :=
  (mappings.find? (fun kv => kv.1 = from_position)).map (·.2)

/-- Lookup in `position_mappings_reversed = dict((v, k) for k, v in
position_mappings.items())`: when several entries share a display column the
later insertion wins, hence the search over the reversed list. -/
def reversedLookup (mappings : List (Nat × Nat)) (v : Nat) : Option Nat :=
  (mappings.reverse.find? (fun kv => kv.2 = v)).map (·.1)

/-- The `while display_pos >= 0` loop of the inner `display_to_source` of
`TabsProcessor`, already specialised to a non-negative starting column:
try the reversed lookup, on failure decrement, and return 0 once the column
would go below 0. -/
def tabsD2Sloop (mappings : List (Nat × Nat)) : Nat → Nat
  | 0 => (reversedLookup mappings 0).getD 0
  | j + 1 =>
    match reversedLookup mappings (j + 1) with
    | some k => k
    | none => tabsD2Sloop mappings j

/-- The inner `display_to_source` of `TabsProcessor`: scan downward from the
given display column for the nearest recorded one; a negative column skips
the loop and returns 0 directly. -/
def tabsDisplayToSource (mappings : List (Nat × Nat)) (display_pos : Int) : Nat :=
  if display_pos < 0 then 0 else tabsD2Sloop mappings display_pos.toNat

theorem find?_unique {α : Type} (p : α → Bool) (a : α) :
    ∀ (l : List α), a ∈ l → p a = true → (∀ b ∈ l, p b = true → b = a) →
      l.find? p = some a
  | [], ha, _, _ => absurd ha (List.not_mem_nil a)
  | x :: xs, ha, hpa, huniq => by
    by_cases hx : p x = true
    · have hxa : x = a := huniq x (List.mem_cons_self x xs) hx
      simp [List.find?, hx, hxa, hpa]
    · have hx' : p x = false := Bool.eq_false_iff.mpr hx
      have ha' : a ∈ xs := by
        rcases List.mem_cons.mp ha with h | h
        · exact absurd (h ▸ hpa) hx
        · exact h
      simp only [List.find?, hx']
      exact find?_unique p a xs ha' hpa (fun b hb => huniq b (List.mem_cons_of_mem x hb))

theorem tabsWalk_pos_le (t : Nat) (s1 s2 : Char) (st : String) :
    ∀ (fs : List Fragment) (i pos : Nat),
      pos ≤ (tabsWalk t s1 s2 st fs i pos).2.2
  | [], _, pos => le_refl pos
  | f :: fs, i, pos => by
    by_cases hf : f.2 = ['\t'] <;> simp only [tabsWalk, hf, if_true, if_false] <;>
      exact le_trans (Nat.le_add_right _ _) (tabsWalk_pos_le t s1 s2 st fs (i + 1) _)

/-- With a positive tab stop, every recorded display column is either the
final one (recorded for the virtual end-of-line source index) or strictly
below it. -/
theorem tabsWalk_entries (t : Nat) (s1 s2 : Char) (st : String) (ht : 0 < t) :
    ∀ (fs : List Fragment) (i pos : Nat) (kv : Nat × Nat),
      kv ∈ (tabsWalk t s1 s2 st fs i pos).1 →
      kv = (i + fs.length, (tabsWalk t s1 s2 st fs i pos).2.2) ∨
        kv.2 < (tabsWalk t s1 s2 st fs i pos).2.2
  | [], i, pos, kv, hkv => by
    simp only [tabsWalk, List.mem_singleton] at hkv
    exact Or.inl (by simpa using hkv)
  | f :: fs, i, pos, kv, hkv => by
    by_cases hf : f.2 = ['\t']
    · simp only [tabsWalk, hf, if_true, List.mem_cons] at hkv ⊢
      have hcount : 1 ≤ (if t - pos % t = 0 then t else t - pos % t) := by
        by_cases h0 : t - pos % t = 0 <;> simp [h0] <;> omega
      rcases hkv with rfl | hkv
      · refine Or.inr (lt_of_lt_of_le ?_ (tabsWalk_pos_le t s1 s2 st fs (i + 1) _))
        omega
      · rcases tabsWalk_entries t s1 s2 st ht fs (i + 1) _ kv hkv with h | h
        · exact Or.inl (by rw [h]; simp only [List.length_cons]; congr 1; omega)
        · exact Or.inr h
    · simp only [tabsWalk, hf, if_false, List.mem_cons] at hkv ⊢
      rcases hkv with rfl | hkv
      · refine Or.inr (lt_of_lt_of_le ?_ (tabsWalk_pos_le t s1 s2 st fs (i + 1) _))
        omega
      · rcases tabsWalk_entries t s1 s2 st ht fs (i + 1) _ kv hkv with h | h
        · exact Or.inl (by rw [h]; simp only [List.length_cons]; congr 1; omega)
        · exact Or.inr h

/-- The recorded source indices are exactly `i .. i + length` (one entry per
exploded source character plus the virtual end-of-line index). -/
theorem tabsWalk_keys (t : Nat) (s1 s2 : Char) (st : String) :
    ∀ (fs : List Fragment) (i pos : Nat),
      (tabsWalk t s1 s2 st fs i pos).1.map (·.1) = List.range' i (fs.length + 1)
  | [], i, pos => by simp [tabsWalk]
  | f :: fs, i, pos => by
    by_cases hf : f.2 = ['\t'] <;>
      simp only [tabsWalk, hf, if_true, if_false, List.map_cons, List.length_cons] <;>
      rw [tabsWalk_keys t s1 s2 st fs (i + 1)] <;>
      simp [List.range'_succ]

/-- The entry for the virtual end-of-line index is recorded, with the final
display column as its value. -/
theorem tabsWalk_last_mem (t : Nat) (s1 s2 : Char) (st : String) :
    ∀ (fs : List Fragment) (i pos : Nat),
      (i + fs.length, (tabsWalk t s1 s2 st fs i pos).2.2) ∈
        (tabsWalk t s1 s2 st fs i pos).1
  | [], i, pos => by simp [tabsWalk]
  | f :: fs, i, pos => by
    by_cases hf : f.2 = ['\t']
    · simp only [tabsWalk, hf, if_true, List.mem_cons, List.length_cons]
      refine Or.inr ?_
      have h := tabsWalk_last_mem t s1 s2 st fs (i + 1)
        (pos + if t - pos % t = 0 then t else t - pos % t)
      have he : i + 1 + fs.length = i + (fs.length + 1) := by omega
      rw [he] at h
      exact h
    · simp only [tabsWalk, hf, if_false, List.mem_cons, List.length_cons]
      refine Or.inr ?_
      have h := tabsWalk_last_mem t s1 s2 st fs (i + 1) (pos + 1)
      have he : i + 1 + fs.length = i + (fs.length + 1) := by omega
      rw [he] at h
      exact h

/-- On a line of single-character fragments (an exploded sequence) the final
display column equals the starting column plus the total text length of the
produced fragments: the tracked `pos` is the width of the expanded line. -/
theorem tabsWalk_width (t : Nat) (s1 s2 : Char) (st : String) (ht : 0 < t) :
    ∀ (fs : List Fragment) (i pos : Nat), (∀ f ∈ fs, (f : Fragment).2.length = 1) →
      pos + fragmentListLen (tabsWalk t s1 s2 st fs i pos).2.1 =
        (tabsWalk t s1 s2 st fs i pos).2.2
  | [], _, pos, _ => by simp [tabsWalk, fragmentListLen]
  | f :: fs, i, pos, hone => by
    by_cases hf : f.2 = ['\t']
    · simp only [tabsWalk, hf, if_true]
      have hcount : 1 ≤ (if t - pos % t = 0 then t else t - pos % t) := by
        by_cases h0 : t - pos % t = 0 <;> simp [h0] <;> omega
      have ih := tabsWalk_width t s1 s2 st ht fs (i + 1)
        (pos + (if t - pos % t = 0 then t else t - pos % t))
        (fun g hg => hone g (List.mem_cons_of_mem f hg))
      simp only [fragmentListLen, List.map_cons, List.sum_cons, List.length_singleton,
        List.length_replicate] at ih ⊢
      omega
    · simp only [tabsWalk, hf, if_false]
      have ih := tabsWalk_width t s1 s2 st ht fs (i + 1) (pos + 1)
        (fun g hg => hone g (List.mem_cons_of_mem f hg))
      have h1 : f.2.length = 1 := hone f (List.mem_cons_self f fs)
      simp only [fragmentListLen, List.map_cons, List.sum_cons] at ih ⊢
      omega

theorem explode_length_one (fs : List Fragment) :
    ∀ f ∈ explodeTextFragments fs, (f : Fragment).2.length = 1 := by
  intro f hf
  simp only [explodeTextFragments, List.mem_flatMap, List.mem_map] at hf
  obtain ⟨g, _, c, _, rfl⟩ := hf
  rfl

theorem explode_length (fs : List Fragment) :
    (explodeTextFragments fs).length = fragmentListLen fs := by
  induction fs with
  | nil => rfl
  | cons f fs ih =>
    simp only [explodeTextFragments, fragmentListLen, List.flatMap_cons, List.map_cons,
      List.sum_cons, List.length_append, List.length_map] at ih ⊢
    omega

/-- Once the display column reaches the final recorded column, the downward
scan of `display_to_source` stops at the virtual end-of-line entry. -/
theorem tabsD2Sloop_of_ge (M : List (Nat × Nat)) (width n : Nat)
    (hfind : reversedLookup M width = some n)
    (hnone : ∀ v, width < v → reversedLookup M v = none) :
    ∀ m, width ≤ m → tabsD2Sloop M m = n := by
  intro m
  induction m with
  | zero =>
    intro hm
    have hw : width = 0 := Nat.le_zero.mp hm
    subst hw
    simp [tabsD2Sloop, hfind]
  | succ k ih =>
    intro hm
    rcases Nat.lt_or_ge width (k + 1) with hlt | hge
    · have hn : reversedLookup M (k + 1) = none := hnone _ hlt
      simp only [tabsD2Sloop, hn]
      exact ih (Nat.lt_succ_iff.mp hlt)
    · have hw : width = k + 1 := le_antisymm hm hge
      subst hw
      simp [tabsD2Sloop, hfind]

/-- C10: with a positive tab stop, the tab-expansion stage's returned
`display_to_source` is a total function that clamps at both ends: every
negative display position maps to 0, and every display position at or beyond
the expanded line's total width (the total text length of the produced
fragments) maps to the number of source characters in the line — which also
equals the total text length of the input fragments. -/
theorem tabs_d2s_total_and_clamped (tabstop : Nat) (s1 s2 : Char) (st : String)
    (fragments : List Fragment) (ht : 0 < tabstop) :
    (∀ j : Int, j < 0 →
      tabsDisplayToSource (tabsTransform tabstop s1 s2 st fragments).1 j = 0) ∧
    (∀ j : Int,
      (fragmentListLen (tabsTransform tabstop s1 s2 st fragments).2.1 : Int) ≤ j →
      tabsDisplayToSource (tabsTransform tabstop s1 s2 st fragments).1 j =
        (explodeTextFragments fragments).length) ∧
    (explodeTextFragments fragments).length = fragmentListLen fragments := by
  refine ⟨fun j hj => by simp [tabsDisplayToSource, hj],
    fun j hj => ?_, explode_length fragments⟩
  simp only [tabsTransform] at hj ⊢
  have hwidth : fragmentListLen
      (tabsWalk tabstop s1 s2 st (explodeTextFragments fragments) 0 0).2.1 =
      (tabsWalk tabstop s1 s2 st (explodeTextFragments fragments) 0 0).2.2 := by
    simpa using tabsWalk_width tabstop s1 s2 st ht (explodeTextFragments fragments) 0 0
      (explode_length_one fragments)
  have hlast : ((explodeTextFragments fragments).length,
      (tabsWalk tabstop s1 s2 st (explodeTextFragments fragments) 0 0).2.2) ∈
      (tabsWalk tabstop s1 s2 st (explodeTextFragments fragments) 0 0).1 := by
    simpa using tabsWalk_last_mem tabstop s1 s2 st (explodeTextFragments fragments) 0 0
  have hle : ∀ kv ∈ (tabsWalk tabstop s1 s2 st (explodeTextFragments fragments) 0 0).1,
      kv.2 ≤ (tabsWalk tabstop s1 s2 st (explodeTextFragments fragments) 0 0).2.2 := by
    intro kv hkv
    rcases tabsWalk_entries tabstop s1 s2 st ht (explodeTextFragments fragments) 0 0 kv hkv
      with h | h
    · rw [h]
    · exact le_of_lt h
  have huniq : ∀ kv ∈ (tabsWalk tabstop s1 s2 st (explodeTextFragments fragments) 0 0).1,
      kv.2 = (tabsWalk tabstop s1 s2 st (explodeTextFragments fragments) 0 0).2.2 →
      kv = ((explodeTextFragments fragments).length,
        (tabsWalk tabstop s1 s2 st (explodeTextFragments fragments) 0 0).2.2) := by
    intro kv hkv hv
    rcases tabsWalk_entries tabstop s1 s2 st ht (explodeTextFragments fragments) 0 0 kv hkv
      with h | h
    · simpa using h
    · omega
  have hfind : reversedLookup (tabsWalk tabstop s1 s2 st (explodeTextFragments fragments) 0 0).1
      (tabsWalk tabstop s1 s2 st (explodeTextFragments fragments) 0 0).2.2 =
      some (explodeTextFragments fragments).length := by
    rw [reversedLookup, find?_unique _ ((explodeTextFragments fragments).length,
        (tabsWalk tabstop s1 s2 st (explodeTextFragments fragments) 0 0).2.2)
      _ (List.mem_reverse.mpr hlast) (by simp)
      (fun b hb hpb => huniq b (List.mem_reverse.mp hb) (by simpa using hpb))]
    rfl
  have hnone : ∀ v, (tabsWalk tabstop s1 s2 st (explodeTextFragments fragments) 0 0).2.2 < v →
      reversedLookup (tabsWalk tabstop s1 s2 st (explodeTextFragments fragments) 0 0).1 v =
        none := by
    intro v hv
    rw [reversedLookup, List.find?_eq_none.mpr]
    · rfl
    · intro kv hkv
      have := hle kv (List.mem_reverse.mp hkv)
      simp only [decide_eq_true_eq]
      omega
  have hj0 : ¬ j < 0 := by omega
  rw [tabsDisplayToSource, if_neg hj0]
  refine tabsD2Sloop_of_ge _ _ _ hfind hnone j.toNat ?_
  omega

/-- C3: for tab width 4 on the source line with characters `a`, tab, `b`, the
expanded display line has total width 5, `source_to_display` maps 0 to 0, 1 to
1 and 2 to 4, `display_to_source 2` (strictly inside the tab's filler run)
resolves to 1 and `display_to_source 4` to 2; in general a tab reached at
display column `pos` is replaced by `count = tabstop - pos % tabstop`
characters — one tab-start glyph followed by `count - 1` tab-fill glyphs —
and the display column advances by `count`. -/
theorem tabs_roundtrip (tabstop : Nat) (s1 s2 : Char) (st st' : String)
    (fs : List Fragment) (i pos : Nat) (ht : 0 < tabstop) :
    (fragmentListLen (tabsTransform 4 '|' '┈' "class:tab"
        [("", ['a', '\t', 'b'])]).2.1 = 5 ∧
      tabsSourceToDisplay (tabsTransform 4 '|' '┈' "class:tab"
        [("", ['a', '\t', 'b'])]).1 0 = some 0 ∧
      tabsSourceToDisplay (tabsTransform 4 '|' '┈' "class:tab"
        [("", ['a', '\t', 'b'])]).1 1 = some 1 ∧
      tabsSourceToDisplay (tabsTransform 4 '|' '┈' "class:tab"
        [("", ['a', '\t', 'b'])]).1 2 = some 4 ∧
      tabsDisplayToSource (tabsTransform 4 '|' '┈' "class:tab"
        [("", ['a', '\t', 'b'])]).1 2 = 1 ∧
      tabsDisplayToSource (tabsTransform 4 '|' '┈' "class:tab"
        [("", ['a', '\t', 'b'])]).1 4 = 2) ∧
    tabsWalk tabstop s1 s2 st ((st', ['\t']) :: fs) i pos =
      ((i, pos) ::
          (tabsWalk tabstop s1 s2 st fs (i + 1) (pos + (tabstop - pos % tabstop))).1,
        (st, [s1]) ::
          (st, List.replicate (tabstop - pos % tabstop - 1) s2) ::
            (tabsWalk tabstop s1 s2 st fs (i + 1) (pos + (tabstop - pos % tabstop))).2.1,
        (tabsWalk tabstop s1 s2 st fs (i + 1) (pos + (tabstop - pos % tabstop))).2.2) := by
  refine ⟨⟨by decide, by decide, by decide, by decide, by decide, by decide⟩, ?_⟩
  have hc : tabstop - pos % tabstop ≠ 0 :=
    Nat.sub_ne_zero_of_lt (Nat.mod_lt pos ht)
  simp [tabsWalk, hc]

theorem tabs_roundtrip_witness :
    0 < 4 ∧
    ((fragmentListLen (tabsTransform 4 '|' '┈' "class:tab"
        [("", ['a', '\t', 'b'])]).2.1 = 5 ∧
      tabsSourceToDisplay (tabsTransform 4 '|' '┈' "class:tab"
        [("", ['a', '\t', 'b'])]).1 0 = some 0 ∧
      tabsSourceToDisplay (tabsTransform 4 '|' '┈' "class:tab"
        [("", ['a', '\t', 'b'])]).1 1 = some 1 ∧
      tabsSourceToDisplay (tabsTransform 4 '|' '┈' "class:tab"
        [("", ['a', '\t', 'b'])]).1 2 = some 4 ∧
      tabsDisplayToSource (tabsTransform 4 '|' '┈' "class:tab"
        [("", ['a', '\t', 'b'])]).1 2 = 1 ∧
      tabsDisplayToSource (tabsTransform 4 '|' '┈' "class:tab"
        [("", ['a', '\t', 'b'])]).1 4 = 2) ∧
    tabsWalk 4 '|' '┈' "class:tab" [("", ['\t'])] 0 0 =
      ((0, 0) :: (tabsWalk 4 '|' '┈' "class:tab" [] (0 + 1) (0 + (4 - 0 % 4))).1,
        ("class:tab", ['|']) ::
          ("class:tab", List.replicate (4 - 0 % 4 - 1) '┈') ::
            (tabsWalk 4 '|' '┈' "class:tab" [] (0 + 1) (0 + (4 - 0 % 4))).2.1,
        (tabsWalk 4 '|' '┈' "class:tab" [] (0 + 1) (0 + (4 - 0 % 4))).2.2)) :=
  ⟨by decide, tabs_roundtrip 4 '|' '┈' "class:tab" "" [] 0 0 (by decide)⟩

theorem tabs_d2s_total_and_clamped_witness :
    0 < 4 ∧
    tabsDisplayToSource (tabsTransform 4 '|' '┈' "class:tab"
      [("", ['a', '\t', 'b'])]).1 (-3) = 0 ∧
    tabsDisplayToSource (tabsTransform 4 '|' '┈' "class:tab"
      [("", ['a', '\t', 'b'])]).1 7 =
      (explodeTextFragments [(("" : String), ['a', '\t', 'b'])]).length ∧
    (explodeTextFragments [(("" : String), ['a', '\t', 'b'])]).length =
      fragmentListLen [(("" : String), ['a', '\t', 'b'])] :=
  ⟨by decide,
    (tabs_d2s_total_and_clamped 4 '|' '┈' "class:tab"
      [("", ['a', '\t', 'b'])] (by decide)).1 (-3) (by decide),
    (tabs_d2s_total_and_clamped 4 '|' '┈' "class:tab"
      [("", ['a', '\t', 'b'])] (by decide)).2.1 7 (by decide),
    (tabs_d2s_total_and_clamped 4 '|' '┈' "class:tab"
      [("", ['a', '\t', 'b'])] (by decide)).2.2⟩

/-- C2 counterexample: the claim that every returned mapping function is total
and clamped to a non-negative index fails on the code: the tab-expansion
stage's `source_to_display` for the line `a`-tab-`b` has no entry at source
offset 5 (the Python dict lookup raises `KeyError`, modelled by `none`), and
the prefix-insertion stage's `display_to_source` with a prefix of length 2
returns `-2` at display offset 0. -/
theorem mapping_totality_counterexample :
    tabsSourceToDisplay (tabsTransform 4 '|' '┈' "class:tab"
        [("", ['a', '\t', 'b'])]).1 5 = none ∧
    (beforeInputApply [("class:prompt", ['>', ' '])]
        { lineno := 0, source_to_display := fun i => i,
          fragments := [("", ['a'])], width := 80, height := 24 }).display_to_source 0 =
      -2 :=
  ⟨by decide, by decide⟩

/-- C2 amended: the tab-expansion stage's `source_to_display` is defined
exactly for source offsets up to the exploded line length (and raises for
larger ones), and the prefix-insertion stage's `display_to_source` on line 0
returns `j - L` without clamping, for every display offset `j` and prefix of
total text length `L`. -/
theorem mapping_totality_amended (tabstop : Nat) (s1 s2 : Char) (st : String)
    (fragments : List Fragment) (i : Nat) (fragmentsBefore : List Fragment)
    (s2dF : Int → Int) (frs : List Fragment) (w h : Nat) (j : Int) :
    ((tabsSourceToDisplay (tabsTransform tabstop s1 s2 st fragments).1 i).isSome ↔
      i ≤ (explodeTextFragments fragments).length) ∧
    (beforeInputApply fragmentsBefore
        { lineno := 0, source_to_display := s2dF, fragments := frs,
          width := w, height := h }).display_to_source j =
      j - fragmentListLen fragmentsBefore := by
  constructor
  · simp only [tabsTransform, tabsSourceToDisplay, Option.isSome_map', List.find?_isSome,
      decide_eq_true_eq]
    constructor
    · rintro ⟨kv, hkv, rfl⟩
      have hmem : kv.1 ∈ List.range' 0 ((explodeTextFragments fragments).length + 1) := by
        rw [← tabsWalk_keys tabstop s1 s2 st (explodeTextFragments fragments) 0 0]
        exact List.mem_map_of_mem _ hkv
      have := List.mem_range'_1.mp hmem
      omega
    · intro hi
      have hmem : i ∈ List.range' 0 ((explodeTextFragments fragments).length + 1) :=
        List.mem_range'_1.mpr ⟨Nat.zero_le i, by omega⟩
      rw [← tabsWalk_keys tabstop s1 s2 st (explodeTextFragments fragments) 0 0] at hmem
      obtain ⟨kv, hkv, hkv1⟩ := List.mem_map.mp hmem
      exact ⟨kv, hkv, hkv1⟩
  · rfl

/-- C5: the prefix-insertion stage acts only on line 0: there it prepends the
supplied fragment sequence and, for a prepended sequence of total text length
`L`, returns `source_to_display i = i + L` and `display_to_source j = j - L`;
on every other line it returns the input fragments unchanged with identity
mappings. -/
theorem before_input_prefix_shift (fragmentsBefore : List Fragment)
    (ti : TransformationInput) (i j : Int) :
    (beforeInputApply fragmentsBefore ti).fragments =
      (if ti.lineno = 0 then fragmentsBefore ++ ti.fragments else ti.fragments) ∧
    (beforeInputApply fragmentsBefore ti).source_to_display i =
      (if ti.lineno = 0 then i + (fragmentListLen fragmentsBefore : Int) else i) ∧
    (beforeInputApply fragmentsBefore ti).display_to_source j =
      (if ti.lineno = 0 then j - (fragmentListLen fragmentsBefore : Int) else j) := by
  by_cases h : ti.lineno = 0 <;> simp [beforeInputApply, h]

/-- C8: applying the selection-highlight stage to an empty line whose selection
range on that line is zero-length at column 0 (with the accumulated mapping
fixing 0) returns exactly one fragment: a single space tagged with the
selected style. -/
theorem selection_empty_line_space (s2d : Nat → Nat) (h : s2d 0 = 0) :
    highlightSelectionApply (some (0, 0)) s2d [] = [(" class:selected ", [' '])] := by
  simp [highlightSelectionApply, explodeTextFragments, h]

theorem selection_empty_line_space_witness :
    (fun i : Nat => i) 0 = 0 ∧
    highlightSelectionApply (some (0, 0)) (fun i => i) [] =
      [(" class:selected ", [' '])] :=
  ⟨rfl, selection_empty_line_space (fun i => i) rfl⟩

/-- The closed set of processor classes of the module, as a tagged union:
one constructor per concrete class, plus `conditional` (wrapping a body and a
filter, the latter abstracted to an identifier) and `merged` (wrapping a
sub-chain).  `showArg` is a subclass of `BeforeInput` in the source, which
matters for `isinstance` checks. -/
inductive Proc where
  | dummy
  | highlightSearch
  | highlightSelection
  | password
  | highlightMatchingBracket
  | displayMultipleCursors
  | beforeInput
  | showArg
  | afterInput
  | appendAutoSuggestion
  | showLeadingWhiteSpace
  | showTrailingWhiteSpace
  | tabs
  | reverseSearch
  | dynamic
  | conditional (body : Proc) (filter : Nat)
  | merged (ps : List Proc)

/-- `isinstance(item, excluded_processors)` for
`ReverseSearchProcessor._excluded_input_processors = [HighlightSearchProcessor,
HighlightSelectionProcessor, HighlightSelectionProcessor, BeforeInput,
AfterInput]`; `showArg` is an instance of `BeforeInput` by subclassing. -/
def isExcluded : Proc → Bool
  | .highlightSearch => true
  | .highlightSelection => true
  | .beforeInput => true
  | .showArg => true
  | .afterInput => true
  | _ => false

mutual

/-- `ReverseSearchProcessor._content.filter_processor`: for a merged chain,
filter the sub-processors recursively; the Python then tests
`len(accepted_processors) > 1`, and its next test `accepted_processors == 1`
compares the *list* with the int 1 and is therefore always false, so a merged
chain with zero or one surviving sub-processor yields `None`.  For a
conditional wrapper, filter the body and rewrap it when it survives.  For any
other processor, keep it unless its class is excluded.  `none` models the
implicit Python `return None`. -/
def filterProcessor : Proc → Option Proc
  | .merged ps =>
    let accepted := filterProcessorList ps
    if accepted.length > 1 then some (.merged accepted)
    else none
  | .conditional body filt =>
    match filterProcessor body with
    | some q => some (.conditional q filt)
    | none => none
  | p => if isExcluded p then none else some p

/-- `[filter_processor(p) for p in item.processors]` followed by dropping the
`None` results. -/
def filterProcessorList : List Proc → List Proc
  | [] => []
  | p :: ps =>
    match filterProcessor p with
    | some q => q :: filterProcessorList ps
    | none => filterProcessorList ps

end

/-- C4 (code bug): the filter is claimed to retain every non-excluded
sub-stage of a merged chain, but a merged chain whose filtered sub-list has
exactly one element is dropped entirely: filtering
`merged [tabs, highlightSearch]` returns `none` even though `tabs` is not
excluded and survives on its own, because the branch meant to return the
single survivor tests `accepted_processors == 1` — a list compared with an
int — instead of `len(accepted_processors) == 1`. -/
theorem filter_drops_single_survivor :
    filterProcessor (Proc.merged [Proc.tabs, Proc.highlightSearch]) = none ∧
    isExcluded Proc.tabs = false ∧
    filterProcessor Proc.tabs = some Proc.tabs ∧
    filterProcessorList [Proc.tabs, Proc.highlightSearch] = [Proc.tabs] := by
  refine ⟨rfl, rfl, rfl, rfl⟩

/-- The state stored by `TabsProcessor.__init__` (the glyph callables are kept
abstract; they are only asserted callable-or-None, which cannot fail for the
defaults). -/
structure TabsProcessorState where
  tabstop : Int
  style : String

/-- `isinstance(tabstop, Integer)` for `Integer` from
`prompt_toolkit.reactive`, which registers the built-in `int`: every integer
satisfies it, whatever its sign. -/
def isIntegerInstance (_t : Int) : Bool := true

/-- `TabsProcessor.__init__`: the only check on the tab width is the
`isinstance` assert; `error` models a failing `assert` (`AssertionError`). -/
def tabsProcessorInit (tabstop : Int) (style : String) :
    Except String TabsProcessorState :=
  if isIntegerInstance tabstop then .ok ⟨tabstop, style⟩
  else .error "AssertionError"

/-- The state stored by `HighlightMatchingBracketProcessor.__init__`. -/
structure BracketProcessorState where
  chars : List Char
  maxCursorDistance : Nat

/-- `HighlightMatchingBracketProcessor.__init__`: stores its arguments with no
validation at all. -/
def highlightMatchingBracketInit (chars : List Char) (maxCursorDistance : Nat) :
    Except String BracketProcessorState :=
  .ok ⟨chars, maxCursorDistance⟩

/-- C6 counterexample: a zero or negative tab width and an empty
bracket-character set are all accepted at construction time — no constructor
fails on them. -/
theorem constructors_accept_invalid_config :
    tabsProcessorInit 0 "class:tab" = .ok ⟨0, "class:tab"⟩ ∧
    tabsProcessorInit (-1) "class:tab" = .ok ⟨-1, "class:tab"⟩ ∧
    highlightMatchingBracketInit [] 1000 = .ok ⟨[], 1000⟩ :=
  ⟨rfl, rfl, rfl⟩

/-- C6 amended: neither constructor rejects its configuration: the
tab-expansion constructor only asserts that the tab width is an integer —
true of every integer, non-positive ones included — and the bracket-matching
constructor performs no validation of its bracket-character set, so both
always succeed. -/
theorem constructors_never_reject (tabstop : Int) (style : String)
    (chars : List Char) (maxCursorDistance : Nat) :
    tabsProcessorInit tabstop style = .ok ⟨tabstop, style⟩ ∧
    highlightMatchingBracketInit chars maxCursorDistance =
      .ok ⟨chars, maxCursorDistance⟩ :=
  ⟨rfl, rfl⟩

/-- Modelled from the spec: the document of the excluded buffer/text layer —
"immutable text + cursor offset" (§3), exposing "line text, cursor (row,
column, absolute offset)" (§6). -/
structure Document where
  text : List Char
  cursor_position : Nat
  deriving DecidableEq

/-- Modelled from the spec: `Document.current_char` — the character exactly
under the cursor; `none` models the empty string returned past the end. -/
def Document.currentChar (d : Document) : Option Char :=
  d.text.get? d.cursor_position

/-- Modelled from the spec: `Document.char_before_cursor` — the character
immediately before the cursor; `none` models the empty string at offset 0. -/
def Document.charBeforeCursor (d : Document) : Option Char :=
  if d.cursor_position = 0 then none else d.text.get? (d.cursor_position - 1)

/-- Modelled from the spec: `Document.translate_index_to_position` — the
index-to-(row, column) translation of §6: row counts the newlines before the
index, column the distance from the last one. -/
def translateIndexToPosition (text : List Char) (index : Nat) : Nat × Nat :=
  let before := text.take index
  (before.count '\n', (before.reverse.takeWhile (fun c => c ≠ '\n')).length)

/-- `HighlightMatchingBracketProcessor._closing_braces`. -/
def closingBraces : List Char := [']', ')', '\x7d', '>']

/-- `HighlightMatchingBracketProcessor._get_positions_to_highlight`, with the
bounded matching-bracket query of the excluded document layer supplied as the
parameter `findMatchingBracketPosition` (returning the match position
relative to the cursor; the Python tests the result with `if pos:`, which is
false for `None` and for `0` alike, so both are modelled by `0`).  When the
character before the cursor is used, the document is rebound to one with the
cursor shifted back, and the returned cursor row/column are those of the
rebound document. -/
def getPositionsToHighlight (chars : List Char) (maxCursorDistance : Nat)
    (findMatchingBracketPosition : Document → Int → Int → Int)
    (document : Document) : List (Nat × Nat) :=
  let dp : Document × Int :=
    if document.currentChar.elim false (fun c => chars.contains c) then
      (document, findMatchingBracketPosition document
        ((document.cursor_position : Int) - maxCursorDistance)
        ((document.cursor_position : Int) + maxCursorDistance))
    else if document.charBeforeCursor.elim false
        (fun c => closingBraces.contains c && chars.contains c) then
      let document2 : Document := ⟨document.text, document.cursor_position - 1⟩
      (document2, findMatchingBracketPosition document2
        ((document2.cursor_position : Int) - maxCursorDistance)
        ((document2.cursor_position : Int) + maxCursorDistance))
    else (document, 0)
  if dp.2 ≠ 0 then
    let posAbs : Int := dp.2 + dp.1.cursor_position
    let rc := translateIndexToPosition dp.1.text posAbs.toNat
    let cc := translateIndexToPosition dp.1.text dp.1.cursor_position
    [(rc.1, rc.2), (cc.1, cc.2)]
  else []

/-- The anchor rule in the spec's words: prefer the character exactly under
the cursor when it is a configured bracket character; otherwise, when the
character immediately before the cursor is a configured closing bracket, use
the document with the cursor shifted back one position; otherwise no
anchor. -/
def specAnchor (chars : List Char) (d : Document) : Option Document :=
  if d.currentChar.elim false (fun c => chars.contains c) then some d
  else if d.charBeforeCursor.elim false
      (fun c => closingBraces.contains c && chars.contains c) then
    some ⟨d.text, d.cursor_position - 1⟩
  else none

/-- The highlight-application loop of
`HighlightMatchingBracketProcessor.apply_transformation` (the cached
positions are supplied directly; the cache returns exactly the computed
positions on a miss): for each position on this line, map the column through
`source_to_display`, explode and restyle that character; `none` models the
`IndexError` of `fragments[col]` for an out-of-range column. -/
def bracketApplyTransformation (positions : List (Nat × Nat)) (lineno : Nat)
    (s2d : Nat → Nat) (cursorCol : Nat) (fragments : List Fragment) :
    Option (List Fragment) :=
  positions.foldlM (fun frs rc =>
    if rc.1 = lineno then
      let col := s2d rc.2
      let exploded := explodeTextFragments frs
      match exploded.get? col with
      | none => none
      | some f =>
        let style := if col = cursorCol then f.1 ++ " class:matching-bracket.cursor "
          else f.1 ++ " class:matching-bracket.other "
        some (exploded.set col (style, f.2))
    else some frs) fragments

/-- C7: the bracket-matching stage selects its anchor exactly as the spec
states — the character under the cursor when configured, else the character
before the cursor when it is a configured closing bracket (with the cursor
shifted back), else no anchor — and when there is no anchor it computes no
highlight positions and leaves the fragments unchanged. -/
theorem bracket_anchor_selection (chars : List Char) (maxCursorDistance : Nat)
    (fmb : Document → Int → Int → Int) (d : Document) (lineno : Nat)
    (s2d : Nat → Nat) (cursorCol : Nat) (fragments : List Fragment) :
    getPositionsToHighlight chars maxCursorDistance fmb d =
      (match specAnchor chars d with
       | none => []
       | some d2 =>
         let pos := fmb d2 ((d2.cursor_position : Int) - maxCursorDistance)
           ((d2.cursor_position : Int) + maxCursorDistance)
         if pos ≠ 0 then
           let rc := translateIndexToPosition d2.text (pos + (d2.cursor_position : Int)).toNat
           let cc := translateIndexToPosition d2.text d2.cursor_position
           [(rc.1, rc.2), (cc.1, cc.2)]
         else []) ∧
    (specAnchor chars d = none →
      getPositionsToHighlight chars maxCursorDistance fmb d = [] ∧
      bracketApplyTransformation (getPositionsToHighlight chars maxCursorDistance fmb d)
        lineno s2d cursorCol fragments = some fragments) := by
  have hmain : getPositionsToHighlight chars maxCursorDistance fmb d =
      (match specAnchor chars d with
       | none => []
       | some d2 =>
         let pos := fmb d2 ((d2.cursor_position : Int) - maxCursorDistance)
           ((d2.cursor_position : Int) + maxCursorDistance)
         if pos ≠ 0 then
           let rc := translateIndexToPosition d2.text (pos + (d2.cursor_position : Int)).toNat
           let cc := translateIndexToPosition d2.text d2.cursor_position
           [(rc.1, rc.2), (cc.1, cc.2)]
         else []) := by
    unfold getPositionsToHighlight specAnchor
    by_cases h1 : d.currentChar.elim false (fun c => chars.contains c)
    · simp only [h1, if_true]
    · by_cases h2 : d.charBeforeCursor.elim false
          (fun c => closingBraces.contains c && chars.contains c)
      · simp only [h1, h2, if_true, if_false, Bool.false_eq_true]
      · simp only [h1, h2, if_true, if_false, Bool.false_eq_true]
        simp
  refine ⟨hmain, fun hnone => ?_⟩
  have hpos : getPositionsToHighlight chars maxCursorDistance fmb d = [] := by
    rw [hmain, hnone]
  exact ⟨hpos, by rw [hpos]; rfl⟩

theorem bracket_anchor_selection_witness :
    specAnchor ['(', ')'] ⟨['a', 'b'], 0⟩ = none ∧
    getPositionsToHighlight ['(', ')'] 1000 (fun _ _ _ => 0) ⟨['a', 'b'], 0⟩ = [] ∧
    bracketApplyTransformation
      (getPositionsToHighlight ['(', ')'] 1000 (fun _ _ _ => 0) ⟨['a', 'b'], 0⟩)
      0 (fun i => i) 0 [("", ['a', 'b'])] = some [("", ['a', 'b'])] :=
  ⟨by decide,
    ((bracket_anchor_selection ['(', ')'] 1000 (fun _ _ _ => 0) ⟨['a', 'b'], 0⟩
      0 (fun i => i) 0 [("", ['a', 'b'])]).2 (by decide)).1,
    ((bracket_anchor_selection ['(', ')'] 1000 (fun _ _ _ => 0) ⟨['a', 'b'], 0⟩
      0 (fun i => i) 0 [("", ['a', 'b'])]).2 (by decide)).2⟩

end Processors
